import Mathlib

/-!
Verification of the DevBox/devspin process-supervisor core: a shallow
embedding of the dependency resolver, the process registry, the stop
(shutdown) state machine and the start (startup) orchestration, with
theorems checking the natural-language specification against the code.

Source files embedded:
* `devspin_cli/src/cli/start.rs` — `sort_services_by_dependencies`,
  `visit_service`, `wait_for_dependencies`, `start_services`,
  `validate_args`, `should_start_service`
* `devspin_cli/src/cli/stop.rs` — `validate_args`, `sort_services_for_shutdown`,
  `stop_single_service`, `force_stop_service`, `stop_services_gracefully`
* `devbox_cli/src/process/state.rs` — `ProcessInfo`, `ProcessStatus`,
  `ProcessState`, `add_process`, `remove_process`, `get_project_processes`,
  JSON persistence layout
-/

/-- Mirror of `HealthCheck` from `devspin_cli`'s yaml config model, as used by
`start.rs` (`type_entry`, optional `port`, `http_target`). -/
structure HealthCheck where
  type_entry : String
  port : Option Nat
  http_target : String
  deriving Repr, DecidableEq

/-- Mirror of `Service` from `devspin_cli`'s yaml config model, with the fields
`start.rs` reads: `name`, `service_type`, `command`, `working_dir`,
`dependencies`, `health_check`. -/
structure Service where
  name : String
  service_type : String
  command : String
  working_dir : Option String
  dependencies : List String
  health_check : Option HealthCheck
  deriving Repr, DecidableEq

/-- Names of a service list, in order. -/
def namesOf (L : List Service) : List String := L.map Service.name

/-- Embedding of `StartArgs::visit_service` (start.rs:516-535): depth-first
post-order visit of one service; the `foldl` is the
`for dep_name in &service.dependencies` loop, looking each dependency name up
in the input list (`all_services.iter().find(|s| &s.name == dep_name)`) and
skipping names that are absent.  The Rust recursion is bounded because a
service's name is inserted into `visited` before its dependencies are
traversed, so recursion depth never exceeds the number of distinct service
names; `fuel` makes that bound explicit (callers pass `all.length + 1`, and
the spec lemmas below show the fuel-exhausted branch is unreachable for that
choice).  State is `(visited, sorted)`. -/
def visit_service (all : List Service) : Nat → Service → List String × List Service → List String × List Service
  | 0, _, st => st
  | fuel+1, s, st =>
    if s.name ∈ st.1 then st
    else
      let r := s.dependencies.foldl
        (fun acc dep =>
          match all.find? (fun t => t.name == dep) with
          | some d => visit_service all fuel d acc
          | none => acc)
        (s.name :: st.1, st.2)
      (r.1, r.2 ++ [s])

/-- Embedding of `StartArgs::sort_services_by_dependencies` (start.rs:505-514):
visit every service in input order, accumulating the post-order list. -/
def sort_services_by_dependencies (services : List Service) : List Service :=
  (services.foldl (fun st s => visit_service services (services.length + 1) s st)
    ([], [])).2

/-- Convenience constructor for services in examples: name and dependencies. -/
def mkService (name : String) (deps : List String) : Service :=
  { name := name, service_type := "app", command := "run " ++ name,
    working_dir := none, dependencies := deps, health_check := none }

example :
    namesOf (sort_services_by_dependencies
      [mkService "web" ["api"], mkService "api" ["db"], mkService "db" []]) =
      ["db", "api", "web"] := by decide

example :
    namesOf (sort_services_by_dependencies
      [mkService "a" ["c"], mkService "b" [], mkService "c" []]) =
      ["c", "a", "b"] := by decide

/-! ### Dependency-graph notions for the resolver -/

/-- Dependency edge between names induced by a service list: `a ⟶ b` when some
service named `a` in the list has `b` among its declared dependencies. -/
def edgeIn (all : List Service) (a b : String) : Prop :=
  ∃ t ∈ all, t.name = a ∧ b ∈ t.dependencies

/-- The dependency edges of the list form a DAG: no name reaches itself through
a nonempty path of `edgeIn` edges. -/
def AcyclicDeps (all : List Service) : Prop :=
  ∀ a, ¬ Relation.TransGen (edgeIn all) a a

/-- `L` is topologically ordered with respect to the input list `all`:
whenever `t` occurs in `L`, every declared dependency of `t` whose name is
present in the input list occurs strictly earlier in `L`. -/
def DepsBefore (all L : List Service) : Prop :=
  ∀ pre t post, L = pre ++ t :: post →
    ∀ d ∈ t.dependencies, d ∈ namesOf all → d ∈ namesOf pre

/-- Number of input-list names not yet in the visited set. -/
def unvisitedCard (all : List Service) (visited : List String) : Nat :=
  ((namesOf all).toFinset \ visited.toFinset).card

theorem namesOf_append (A B : List Service) :
    namesOf (A ++ B) = namesOf A ++ namesOf B := List.map_append _ _ _

theorem depsBefore_nil (all : List Service) : DepsBefore all [] := by
  intro pre t post h
  exact absurd h (by simp)

theorem depsBefore_concat {all M : List Service} {s : Service}
    (hM : DepsBefore all M)
    (hs : ∀ d ∈ s.dependencies, d ∈ namesOf all → d ∈ namesOf M) :
    DepsBefore all (M ++ [s]) := by
  intro pre t post h d hd hdall
  rcases List.eq_nil_or_concat post with rfl | ⟨q, y, rfl⟩
  · obtain ⟨hpre, hts⟩ := List.append_inj' h rfl
    obtain rfl : s = t := by simpa using hts
    rw [← hpre]
    exact hs d hd hdall
  · have h' : M ++ [s] = (pre ++ t :: q) ++ [y] := by
      simpa using h
    obtain ⟨hM', _⟩ := List.append_inj' h' rfl
    exact hM pre t q hM' d hd hdall

theorem unvisited_mono {all : List Service} {v v' : List String} (h : v ⊆ v') :
    unvisitedCard all v' ≤ unvisitedCard all v :=
  Finset.card_le_card (Finset.sdiff_subset_sdiff (le_refl _)
    (fun _ hx => List.mem_toFinset.mpr (h (List.mem_toFinset.mp hx))))

theorem unvisited_cons_lt {all : List Service} {nm : String} {visited : List String}
    (hmem : nm ∈ namesOf all) (hnot : nm ∉ visited) :
    unvisitedCard all (nm :: visited) < unvisitedCard all visited := by
  unfold unvisitedCard
  have heq : (namesOf all).toFinset \ (nm :: visited).toFinset =
      ((namesOf all).toFinset \ visited.toFinset).erase nm := by
    rw [List.toFinset_cons, Finset.sdiff_insert]
  rw [heq]
  exact Finset.card_lt_card (Finset.erase_ssubset (Finset.mem_sdiff.mpr
    ⟨List.mem_toFinset.mpr hmem, fun h => hnot (List.mem_toFinset.mp h)⟩))

theorem unvisited_le (all : List Service) (v : List String) :
    unvisitedCard all v ≤ all.length := by
  calc unvisitedCard all v ≤ (namesOf all).toFinset.card :=
        Finset.card_le_card Finset.sdiff_subset
    _ ≤ (namesOf all).length := (namesOf all).toFinset_card_le
    _ = all.length := by simp [namesOf]

/-- One step of the dependency loop of `visit_service`: look the dependency
name up in the input list and visit the found service, skipping absent names.
Definitionally equal to the lambda inside `visit_service`. -/
def visit_dep_step (all : List Service) (fuel : Nat)
    (acc : List String × List Service) (dep : String) : List String × List Service :=
  match all.find? (fun t => t.name == dep) with
  | some d => visit_service all fuel d acc
  | none => acc

theorem visit_service_succ (all : List Service) (fuel : Nat) (s : Service)
    (st : List String × List Service) :
    visit_service all (fuel+1) s st =
      if s.name ∈ st.1 then st
      else
        let r := s.dependencies.foldl (visit_dep_step all fuel) (s.name :: st.1, st.2)
        (r.1, r.2 ++ [s]) := rfl

/-- Postconditions of one `visit_service` call, relative to a ghost `stack` of
DFS ancestors.  `nm` is the visited service's name. -/
def VisitConc (all : List Service) (stack : List String)
    (st r : List String × List Service) (nm : String) : Prop :=
  (∃ Δ, r.2 = st.2 ++ Δ ∧ ∀ t ∈ Δ, t ∈ all ∧ t.name ∉ st.1 ∧
      (t.name = nm ∨ ∃ u ∈ all, t.name ∈ u.dependencies)) ∧
  (∀ x, x ∈ r.1 ↔ x ∈ namesOf r.2 ∨ x ∈ stack) ∧
  (namesOf r.2).Nodup ∧
  DepsBefore all r.2 ∧
  nm ∈ namesOf r.2 ∧
  st.1 ⊆ r.1

/-- Full specification of `visit_service` at a given fuel. -/
def VisitSpec (all : List Service) (fuel : Nat) : Prop :=
  ∀ (s : Service) (stack : List String) (st : List String × List Service),
    s ∈ all → AcyclicDeps all →
    (∀ x, x ∈ st.1 ↔ x ∈ namesOf st.2 ∨ x ∈ stack) →
    (namesOf st.2).Nodup →
    DepsBefore all st.2 →
    (∀ x ∈ stack, Relation.TransGen (edgeIn all) x s.name) →
    unvisitedCard all st.1 < fuel →
    VisitConc all stack st (visit_service all fuel s st) s.name

/-- Postconditions of the dependency loop over `deps`. -/
def DepsConc (all : List Service) (stack : List String)
    (st r : List String × List Service) (deps : List String) : Prop :=
  (∃ Δ, r.2 = st.2 ++ Δ ∧ ∀ t ∈ Δ, t ∈ all ∧ t.name ∉ st.1 ∧
      (∃ u ∈ all, t.name ∈ u.dependencies)) ∧
  (∀ x, x ∈ r.1 ↔ x ∈ namesOf r.2 ∨ x ∈ stack) ∧
  (namesOf r.2).Nodup ∧
  DepsBefore all r.2 ∧
  (∀ d ∈ deps, d ∈ namesOf all → d ∈ namesOf r.2) ∧
  st.1 ⊆ r.1

theorem visit_deps_spec (all : List Service) (fuel : Nat) (hS : VisitSpec all fuel)
    (hacyc : AcyclicDeps all) :
    ∀ (deps stack : List String) (st : List String × List Service),
      (∀ x ∈ stack, ∀ d ∈ deps, d ∈ namesOf all → Relation.TransGen (edgeIn all) x d) →
      (∀ d ∈ deps, ∃ u ∈ all, d ∈ u.dependencies) →
      (∀ x, x ∈ st.1 ↔ x ∈ namesOf st.2 ∨ x ∈ stack) →
      (namesOf st.2).Nodup →
      DepsBefore all st.2 →
      unvisitedCard all st.1 < fuel →
      DepsConc all stack st (deps.foldl (visit_dep_step all fuel) st) deps := by
  intro deps
  induction deps with
  | nil =>
    intro stack st _ _ hiff hnd hdb _
    exact ⟨⟨[], by simp, by simp⟩, hiff, hnd, hdb, by simp, fun _ hx => hx⟩
  | cons dep rest ih =>
    intro stack st hreach hrefd hiff hnd hdb hcard
    rw [List.foldl_cons]
    cases hfind : all.find? (fun t => t.name == dep) with
    | none =>
      have hdep : dep ∉ namesOf all := by
        intro hmem
        obtain ⟨t, ht, hname⟩ : ∃ t ∈ all, t.name = dep := by
          simpa [namesOf] using hmem
        have := List.find?_eq_none.mp hfind t ht
        simp [hname] at this
      have hstep : visit_dep_step all fuel st dep = st := by
        simp [visit_dep_step, hfind]
      rw [hstep]
      have h2 := ih stack st
        (fun x hx d hd hdall => hreach x hx d (List.mem_cons_of_mem _ hd) hdall)
        (fun d hd => hrefd d (List.mem_cons_of_mem _ hd)) hiff hnd hdb hcard
      obtain ⟨hΔ, hiff₂, hnd₂, hdb₂, hD3, hsub⟩ := h2
      refine ⟨hΔ, hiff₂, hnd₂, hdb₂, ?_, hsub⟩
      intro e he heall
      rcases List.mem_cons.mp he with rfl | hrest
      · exact absurd heall hdep
      · exact hD3 e hrest heall
    | some d =>
      have hd_all : d ∈ all := List.mem_of_find?_eq_some hfind
      have hd_name : d.name = dep := by
        have := List.find?_some hfind
        simpa using this
      have hdepall : dep ∈ namesOf all := hd_name ▸ List.mem_map_of_mem Service.name hd_all
      have h1 := hS d stack st hd_all hacyc hiff hnd hdb
        (fun x hx => hd_name ▸ hreach x hx dep (List.mem_cons_self _ _) hdepall) hcard
      have hstep : visit_dep_step all fuel st dep = visit_service all fuel d st := by
        simp [visit_dep_step, hfind]
      rw [hstep]
      obtain ⟨⟨Δ₁, hΔ₁, hΔ₁p⟩, hiff₁, hnd₁, hdb₁, hnm₁, hsub₁⟩ := h1
      have hcard₁ : unvisitedCard all (visit_service all fuel d st).1 < fuel :=
        lt_of_le_of_lt (unvisited_mono hsub₁) hcard
      have h2 := ih stack (visit_service all fuel d st)
        (fun x hx e he heall => hreach x hx e (List.mem_cons_of_mem _ he) heall)
        (fun e he => hrefd e (List.mem_cons_of_mem _ he)) hiff₁ hnd₁ hdb₁ hcard₁
      obtain ⟨⟨Δ₂, hΔ₂, hΔ₂p⟩, hiff₂, hnd₂, hdb₂, hD3₂, hsub₂⟩ := h2
      refine ⟨⟨Δ₁ ++ Δ₂, ?_, ?_⟩, hiff₂, hnd₂, hdb₂, ?_, hsub₁.trans hsub₂⟩
      · rw [hΔ₂, hΔ₁, List.append_assoc]
      · intro t ht
        rcases List.mem_append.mp ht with h | h
        · obtain ⟨ha, hb, hc⟩ := hΔ₁p t h
          refine ⟨ha, hb, ?_⟩
          rcases hc with he | hu
          · exact he ▸ hd_name ▸ hrefd dep (List.mem_cons_self _ _)
          · exact hu
        · obtain ⟨ha, hb, hc⟩ := hΔ₂p t h
          exact ⟨ha, fun hmem => hb (hsub₁ hmem), hc⟩
      · intro e he heall
        rcases List.mem_cons.mp he with rfl | hrest
        · have h3 : e ∈ namesOf (visit_service all fuel d st).2 := hd_name ▸ hnm₁
          rw [hΔ₂, namesOf_append]
          exact List.mem_append_left _ h3
        · exact hD3₂ e hrest heall

theorem visit_spec (all : List Service) (hacyc : AcyclicDeps all) :
    ∀ fuel, VisitSpec all fuel := by
  intro fuel
  induction fuel with
  | zero =>
    intro s stack st _ _ _ _ _ _ hcard
    exact absurd hcard (Nat.not_lt_zero _)
  | succ n ih =>
    intro s stack st hs_all _ hiff hnd hdb hstack hcard
    rw [visit_service_succ]
    by_cases hvis : s.name ∈ st.1
    · rw [if_pos hvis]
      have hnm : s.name ∈ namesOf st.2 := by
        rcases (hiff s.name).mp hvis with h | h
        · exact h
        · exact absurd (hstack _ h) (hacyc s.name)
      exact ⟨⟨[], by simp, by simp⟩, hiff, hnd, hdb, hnm, fun _ hx => hx⟩
    · rw [if_neg hvis]
      have hnotin2 : s.name ∉ namesOf st.2 := fun h => hvis ((hiff _).mpr (Or.inl h))
      have hiff' : ∀ x, x ∈ s.name :: st.1 ↔ x ∈ namesOf st.2 ∨ x ∈ s.name :: stack := by
        intro x
        constructor
        · intro hx
          rcases List.mem_cons.mp hx with rfl | hx
          · exact Or.inr (List.mem_cons_self _ _)
          · rcases (hiff x).mp hx with h | h
            · exact Or.inl h
            · exact Or.inr (List.mem_cons_of_mem _ h)
        · intro hx
          rcases hx with h | h
          · exact List.mem_cons_of_mem _ ((hiff x).mpr (Or.inl h))
          · rcases List.mem_cons.mp h with rfl | h
            · exact List.mem_cons_self _ _
            · exact List.mem_cons_of_mem _ ((hiff x).mpr (Or.inr h))
      have hreach' : ∀ x ∈ s.name :: stack, ∀ d ∈ s.dependencies, d ∈ namesOf all →
          Relation.TransGen (edgeIn all) x d := by
        intro x hx d hd _
        rcases List.mem_cons.mp hx with rfl | hx
        · exact Relation.TransGen.single ⟨s, hs_all, rfl, hd⟩
        · exact (hstack x hx).tail ⟨s, hs_all, rfl, hd⟩
      have hrefd' : ∀ d ∈ s.dependencies, ∃ u ∈ all, d ∈ u.dependencies :=
        fun d hd => ⟨s, hs_all, hd⟩
      have hsname : s.name ∈ namesOf all := List.mem_map_of_mem Service.name hs_all
      have hcard' : unvisitedCard all (s.name :: st.1) < n := by
        have h1 := unvisited_cons_lt hsname hvis
        omega
      have h2 := visit_deps_spec all n ih hacyc s.dependencies (s.name :: stack)
        (s.name :: st.1, st.2) hreach' hrefd' hiff' hnd hdb hcard'
      obtain ⟨⟨Δ, hΔ, hΔp⟩, hiff₂, hnd₂, hdb₂, hD3, hsub₂⟩ := h2
      set r := s.dependencies.foldl (visit_dep_step all n) (s.name :: st.1, st.2) with hr
      have hsnotΔ : s.name ∉ namesOf Δ := by
        intro h
        obtain ⟨t, ht, htn⟩ : ∃ t ∈ Δ, t.name = s.name := by
          simpa [namesOf] using h
        exact (hΔp t ht).2.1 (htn ▸ List.mem_cons_self _ _)
      have hsnotr : s.name ∉ namesOf r.2 := by
        rw [hΔ, namesOf_append]
        intro h
        rcases List.mem_append.mp h with h | h
        · exact hnotin2 h
        · exact hsnotΔ h
      refine ⟨⟨Δ ++ [s], ?_, ?_⟩, ?_, ?_, ?_, ?_, ?_⟩
      · show r.2 ++ [s] = st.2 ++ (Δ ++ [s])
        rw [hΔ, List.append_assoc]
      · intro t ht
        rcases List.mem_append.mp ht with h | h
        · obtain ⟨ha, hb, hc⟩ := hΔp t h
          exact ⟨ha, fun hmem => hb (List.mem_cons_of_mem _ hmem), Or.inr hc⟩
        · obtain rfl : t = s := by simpa using h
          exact ⟨hs_all, hvis, Or.inl rfl⟩
      · intro x
        show x ∈ r.1 ↔ x ∈ namesOf (r.2 ++ [s]) ∨ x ∈ stack
        rw [hiff₂ x, namesOf_append]
        constructor
        · intro hx
          rcases hx with h | h
          · exact Or.inl (List.mem_append_left _ h)
          · rcases List.mem_cons.mp h with rfl | h
            · exact Or.inl (List.mem_append_right _ (by simp [namesOf]))
            · exact Or.inr h
        · intro hx
          rcases hx with h | h
          · rcases List.mem_append.mp h with h | h
            · exact Or.inl h
            · have : x = s.name := by simpa [namesOf] using h
              exact Or.inr (this ▸ List.mem_cons_self _ _)
          · exact Or.inr (List.mem_cons_of_mem _ h)
      · show (namesOf (r.2 ++ [s])).Nodup
        rw [namesOf_append]
        refine hnd₂.append (by simp [namesOf]) ?_
        intro x hx hx'
        have : x = s.name := by simpa [namesOf] using hx'
        exact hsnotr (this ▸ hx)
      · exact depsBefore_concat hdb₂ hD3
      · show s.name ∈ namesOf (r.2 ++ [s])
        rw [namesOf_append]
        exact List.mem_append_right _ (by simp [namesOf])
      · intro x hx
        exact hsub₂ (List.mem_cons_of_mem _ hx)

/-- Postconditions of the top-level loop of `sort_services_by_dependencies`
over the remaining input list `L`, starting from a state whose visited set is
exactly the set of names already emitted. -/
def FoldConc (all : List Service) (st r : List String × List Service)
    (L : List Service) : Prop :=
  (∃ Δ, r.2 = st.2 ++ Δ ∧ ∀ t ∈ Δ, t ∈ all ∧ t.name ∉ st.1 ∧
      (t.name ∈ namesOf L ∨ ∃ u ∈ all, t.name ∈ u.dependencies)) ∧
  (∀ x, x ∈ r.1 ↔ x ∈ namesOf r.2) ∧
  (namesOf r.2).Nodup ∧
  DepsBefore all r.2 ∧
  (∀ s ∈ L, s.name ∈ namesOf r.2) ∧
  st.1 ⊆ r.1

theorem sort_fold_spec (all : List Service) (hacyc : AcyclicDeps all) :
    ∀ (L : List Service) (st : List String × List Service),
      (∀ s ∈ L, s ∈ all) →
      (∀ x, x ∈ st.1 ↔ x ∈ namesOf st.2) →
      (namesOf st.2).Nodup →
      DepsBefore all st.2 →
      FoldConc all st
        (L.foldl (fun acc s => visit_service all (all.length + 1) s acc) st) L := by
  intro L
  induction L with
  | nil =>
    intro st _ hiff hnd hdb
    exact ⟨⟨[], by simp, by simp⟩, hiff, hnd, hdb, by simp, fun _ h => h⟩
  | cons s L ih =>
    intro st hmem hiff hnd hdb
    rw [List.foldl_cons]
    have hcard : unvisitedCard all st.1 < all.length + 1 :=
      Nat.lt_succ_of_le (unvisited_le all st.1)
    have h1 := visit_spec all hacyc (all.length + 1) s [] st
      (hmem s (List.mem_cons_self _ _)) hacyc
      (fun x => by simpa using hiff x) hnd hdb (by simp) hcard
    obtain ⟨⟨Δ₁, hΔ₁, hΔ₁p⟩, hiff₁, hnd₁, hdb₁, hnm₁, hsub₁⟩ := h1
    have hiff₁' : ∀ x, x ∈ (visit_service all (all.length + 1) s st).1 ↔
        x ∈ namesOf (visit_service all (all.length + 1) s st).2 :=
      fun x => by simpa using hiff₁ x
    have h2 := ih (visit_service all (all.length + 1) s st)
      (fun t ht => hmem t (List.mem_cons_of_mem _ ht)) hiff₁' hnd₁ hdb₁
    obtain ⟨⟨Δ₂, hΔ₂, hΔ₂p⟩, hiff₂, hnd₂, hdb₂, hmem₂, hsub₂⟩ := h2
    refine ⟨⟨Δ₁ ++ Δ₂, ?_, ?_⟩, hiff₂, hnd₂, hdb₂, ?_, hsub₁.trans hsub₂⟩
    · rw [hΔ₂, hΔ₁, List.append_assoc]
    · intro t ht
      rcases List.mem_append.mp ht with h | h
      · obtain ⟨ha, hb, hc⟩ := hΔ₁p t h
        refine ⟨ha, hb, ?_⟩
        rcases hc with he | hu
        · exact Or.inl (he ▸ by simp [namesOf])
        · exact Or.inr hu
      · obtain ⟨ha, hb, hc⟩ := hΔ₂p t h
        refine ⟨ha, fun hmem' => hb (hsub₁ hmem'), ?_⟩
        rcases hc with he | hu
        · exact Or.inl (by simp [namesOf] at he ⊢; exact Or.inr he)
        · exact Or.inr hu
    · intro t ht
      rcases List.mem_cons.mp ht with rfl | ht
      · rw [hΔ₂, namesOf_append]
        exact List.mem_append_left _ hnm₁
      · exact hmem₂ t ht

/-- For every list of services whose dependency edges form a DAG and whose
names are distinct (service names are unique within a project), the resolver
returns a total order over exactly the input services in which no service
appears before any of its listed dependencies present in the input; absent
dependency names are ignored rather than causing an error; the function is
deterministic; and a service that no service of the input lists as a
dependency appears after every service preceding it in the input. -/
theorem C1_sort_services_by_dependencies_correct (services : List Service)
    (hacyc : AcyclicDeps services) (hnd : (namesOf services).Nodup) :
    (∀ s ∈ services, s ∈ sort_services_by_dependencies services) ∧
    (∀ t ∈ sort_services_by_dependencies services, t ∈ services) ∧
    (namesOf (sort_services_by_dependencies services)).Nodup ∧
    DepsBefore services (sort_services_by_dependencies services) ∧
    (∀ p s₁ m s₂ q, services = p ++ s₁ :: m ++ s₂ :: q →
      (∀ t ∈ services, s₂.name ∉ t.dependencies) →
      ∃ p' m' q', namesOf (sort_services_by_dependencies services) =
        p' ++ s₁.name :: m' ++ s₂.name :: q') := by
  have hdef : sort_services_by_dependencies services =
      (services.foldl (fun st s => visit_service services (services.length + 1) s st)
        ([], [])).2 := rfl
  have hmain := sort_fold_spec services hacyc services ([], [])
    (fun _ h => h) (by simp [namesOf]) (by simp [namesOf]) (depsBefore_nil _)
  obtain ⟨⟨Δ, hΔ, hΔp⟩, _, hndout, hdb, hnames, _⟩ := hmain
  have hΔ' : (services.foldl (fun st s => visit_service services (services.length + 1) s st)
      ([], [])).2 = Δ := by simpa using hΔ
  refine ⟨?_, ?_, ?_, ?_, ?_⟩
  · intro s hs
    have hn := hnames s hs
    rw [← hdef] at hn
    obtain ⟨t, ht, htn⟩ : ∃ t ∈ sort_services_by_dependencies services, t.name = s.name := by
      simpa [namesOf] using hn
    have htin : t ∈ services := by
      have ht' : t ∈ Δ := by rw [hdef, hΔ'] at ht; exact ht
      exact (hΔp t ht').1
    have : t = s := List.inj_on_of_nodup_map hnd htin hs htn
    exact this ▸ ht
  · intro t ht
    rw [hdef, hΔ'] at ht
    exact (hΔp t ht).1
  · rw [hdef]; exact hndout
  · rw [hdef]; exact hdb
  · intro p s₁ m s₂ q hdec hunref
    have hsplit : services = (p ++ [s₁]) ++ (m ++ s₂ :: q) := by simp [hdec]
    have hlist : services.foldl
        (fun st s => visit_service services (services.length + 1) s st) ([], []) =
        (m ++ s₂ :: q).foldl (fun st s => visit_service services (services.length + 1) s st)
          ((p ++ [s₁]).foldl
            (fun st s => visit_service services (services.length + 1) s st) ([], [])) := by
      conv_rhs => rw [← List.foldl_append]
      rw [← hsplit]
    have hsubA : ∀ s ∈ p ++ [s₁], s ∈ services := by
      intro t ht
      rw [hsplit]
      exact List.mem_append_left _ ht
    have hsubB : ∀ s ∈ m ++ s₂ :: q, s ∈ services := by
      intro t ht
      rw [hsplit]
      exact List.mem_append_right _ ht
    have hA := sort_fold_spec services hacyc (p ++ [s₁]) ([], [])
      hsubA (by simp [namesOf]) (by simp [namesOf]) (depsBefore_nil _)
    obtain ⟨⟨ΔA, hΔA, hΔAp⟩, hiffA, hndA, hdbA, hnamesA, _⟩ := hA
    have hB := sort_fold_spec services hacyc (m ++ s₂ :: q)
      ((p ++ [s₁]).foldl
        (fun st s => visit_service services (services.length + 1) s st) ([], []))
      hsubB hiffA hndA hdbA
    obtain ⟨⟨ΔB, hΔB, _⟩, _, _, _, hnamesB, _⟩ := hB
    have hs₁A : s₁.name ∈ namesOf ((p ++ [s₁]).foldl
        (fun st s => visit_service services (services.length + 1) s st) ([], [])).2 :=
      hnamesA s₁ (List.mem_append_right _ (List.mem_cons_self _ _))
    have hs₂B : s₂.name ∈ namesOf ((m ++ s₂ :: q).foldl
        (fun st s => visit_service services (services.length + 1) s st)
        ((p ++ [s₁]).foldl
          (fun st s => visit_service services (services.length + 1) s st) ([], []))).2 :=
      hnamesB s₂ (List.mem_append_right _ (List.mem_cons_self _ _))
    have hnd2 : ((namesOf (p ++ [s₁]) ++ namesOf m) ++ s₂.name :: namesOf q).Nodup := by
      have : namesOf services =
          (namesOf (p ++ [s₁]) ++ namesOf m) ++ s₂.name :: namesOf q := by
        rw [hdec]; simp [namesOf]
      rw [← this]; exact hnd
    have hdisj := List.disjoint_of_nodup_append hnd2
    have hs₂notA : s₂.name ∉ namesOf ((p ++ [s₁]).foldl
        (fun st s => visit_service services (services.length + 1) s st) ([], [])).2 := by
      intro hmem
      obtain ⟨t, ht, htn⟩ : ∃ t ∈ ((p ++ [s₁]).foldl
          (fun st s => visit_service services (services.length + 1) s st) ([], [])).2,
          t.name = s₂.name := by simpa [namesOf] using hmem
      have ht' : t ∈ ΔA := by
        have := hΔA
        simp only [List.nil_append] at this
        rw [this] at ht
        exact ht
      rcases (hΔAp t ht').2.2 with he | ⟨u, hu, hdep⟩
      · have : s₂.name ∈ namesOf (p ++ [s₁]) := htn ▸ he
        exact hdisj (List.mem_append_left _ this) (List.mem_cons_self _ _)
      · exact hunref u hu (htn ▸ hdep)
    obtain ⟨u, v, huv⟩ := List.append_of_mem hs₁A
    have hs₂Δ : s₂.name ∈ namesOf ΔB := by
      have h1 := hs₂B
      rw [hΔB, namesOf_append] at h1
      rcases List.mem_append.mp h1 with h | h
      · exact absurd h hs₂notA
      · exact h
    obtain ⟨w, z, hwz⟩ := List.append_of_mem hs₂Δ
    refine ⟨u, v ++ w, z, ?_⟩
    rw [hdef, hlist, hΔB, namesOf_append, huv, hwz]
    simp

/-- Input showing that input order of two mutually independent services is not
always preserved: `a` depends on `c`, while `b` and `c` are unrelated. -/
def stabilityCexInput : List Service :=
  [mkService "a" ["c"], mkService "b" [], mkService "c" []]

theorem stabilityCexInput_edge (x y : String) :
    edgeIn stabilityCexInput x y ↔ x = "a" ∧ y = "c" := by
  simp [edgeIn, stabilityCexInput, mkService, eq_comm]

/-- The tie-break clause of the claim fails as stated: in `stabilityCexInput`
the services named `b` and `c` are independent (no dependency path in either
direction) and `b` precedes `c` in the input, yet the resolver outputs `c`
before `b`, because `c` is hoisted as a dependency of the earlier service `a`. -/
theorem C1_stability_counterexample :
    (¬ Relation.TransGen (edgeIn stabilityCexInput) "b" "c") ∧
    (¬ Relation.TransGen (edgeIn stabilityCexInput) "c" "b") ∧
    AcyclicDeps stabilityCexInput ∧
    namesOf stabilityCexInput = ["a", "b", "c"] ∧
    namesOf (sort_services_by_dependencies stabilityCexInput) = ["c", "a", "b"] := by
  refine ⟨?_, ?_, ?_, by decide, by decide⟩
  · intro h
    rcases Relation.TransGen.head'_iff.mp h with ⟨z, hbz, _⟩
    exact absurd ((stabilityCexInput_edge _ _).mp hbz).1 (by decide)
  · intro h
    rcases Relation.TransGen.head'_iff.mp h with ⟨z, hcz, _⟩
    exact absurd ((stabilityCexInput_edge _ _).mp hcz).1 (by decide)
  · intro a h
    rcases Relation.TransGen.head'_iff.mp h with ⟨b, hab, hba⟩
    obtain ⟨rfl, rfl⟩ := (stabilityCexInput_edge _ _).mp hab
    rcases Relation.ReflTransGen.cases_head hba with heq | ⟨c, hc, _⟩
    · exact absurd heq (by decide)
    · exact absurd ((stabilityCexInput_edge _ _).mp hc).1 (by decide)

/-- Witness for the amended C1 at a concrete two-service DAG. -/
theorem C1_sort_services_by_dependencies_correct_witness :
    AcyclicDeps [mkService "api" ["db"], mkService "db" []] ∧
    (namesOf [mkService "api" ["db"], mkService "db" []]).Nodup ∧
    DepsBefore [mkService "api" ["db"], mkService "db" []]
      (sort_services_by_dependencies [mkService "api" ["db"], mkService "db" []]) := by
  have hedge : ∀ x y, edgeIn [mkService "api" ["db"], mkService "db" []] x y ↔
      x = "api" ∧ y = "db" := by
    intro x y
    simp [edgeIn, mkService, eq_comm]
  have hacyc : AcyclicDeps [mkService "api" ["db"], mkService "db" []] := by
    intro a h
    rcases Relation.TransGen.head'_iff.mp h with ⟨b, hab, hba⟩
    obtain ⟨rfl, rfl⟩ := (hedge _ _).mp hab
    rcases Relation.ReflTransGen.cases_head hba with heq | ⟨c, hc, _⟩
    · exact absurd heq (by decide)
    · exact absurd ((hedge _ _).mp hc).1 (by decide)
  exact ⟨hacyc, by decide,
    (C1_sort_services_by_dependencies_correct _ hacyc (by decide)).2.2.2.1⟩

/-! ### Process registry (devbox_cli/src/process/state.rs) -/

/-- Mirror of `ProcessStatus` (state.rs:16-21). -/
inductive ProcessStatus where
  | Running
  | Stopped
  | Error (reason : String)
  deriving Repr, DecidableEq

/-- Mirror of `std::time::SystemTime` at the granularity serde persists it:
whole seconds and nanoseconds since the UNIX epoch. -/
structure SystemTime where
  secs_since_epoch : Nat
  nanos_since_epoch : Nat
  deriving Repr, DecidableEq

/-- Mirror of `ProcessInfo` (state.rs:6-14). `pid` is a `u32` in the source;
bounds are tracked by `ProcessInfo.WF` where they matter (persistence). -/
structure ProcessInfo where
  pid : Nat
  service_name : String
  project_name : String
  command : String
  start_time : SystemTime
  status : ProcessStatus
  deriving Repr, DecidableEq

/-- Mirror of `ProcessState` (state.rs:23-27): the `HashMap<u32, ProcessInfo>`
is modelled as a key-value list whose order stands for the map's unspecified
iteration order; `state_file` is the persistence path. -/
structure ProcessState where
  processes : List (Nat × ProcessInfo)
  state_file : String
  deriving Repr, DecidableEq

/-- Key-replacing insertion, the semantics of `HashMap::insert`: if the key is
present its value is replaced, otherwise the entry is added. -/
def insertKey (l : List (Nat × ProcessInfo)) (pid : Nat) (info : ProcessInfo) :
    List (Nat × ProcessInfo) :=
  if l.any (fun e => e.1 == pid) then
    l.map (fun e => if e.1 == pid then (pid, info) else e)
  else
    l ++ [(pid, info)]

/-- The record `add_process` builds (state.rs:51-58): status is always
`Running` and the start time is the current clock, passed explicitly here. -/
def newProcessInfo (pid : Nat) (service_name project_name command : String)
    (now : SystemTime) : ProcessInfo :=
  { pid := pid, service_name := service_name, project_name := project_name,
    command := command, start_time := now, status := ProcessStatus.Running }

/-- Embedding of `ProcessState::add_process` (state.rs:49-64):
`self.processes.insert(pid, process_info)`.  Persistence (`save_state`) is
modelled value-level by `processesToJson` below and has no effect on the
in-memory map. -/
def ProcessState.add_process (st : ProcessState) (pid : Nat)
    (service_name project_name command : String) (now : SystemTime) : ProcessState :=
  { st with processes :=
      insertKey st.processes pid (newProcessInfo pid service_name project_name command now) }

/-- Embedding of `ProcessState::remove_process` (state.rs:66-70):
`self.processes.remove(&pid)`. -/
def ProcessState.remove_process (st : ProcessState) (pid : Nat) : ProcessState :=
  { st with processes := st.processes.filter (fun e => e.1 != pid) }

/-- Embedding of `ProcessState::get_all_processes` (state.rs:78-80):
`self.processes.values()`. -/
def ProcessState.get_all_processes (st : ProcessState) : List ProcessInfo :=
  st.processes.map Prod.snd

/-- Embedding of `ProcessState::get_project_processes` (state.rs:72-76):
values filtered to the project's records with status `Running`. -/
def ProcessState.get_project_processes (st : ProcessState) (project_name : String) :
    List ProcessInfo :=
  (st.processes.map Prod.snd).filter
    (fun p => p.project_name == project_name && p.status == ProcessStatus.Running)

/-- Embedding of `process_count`: number of tracked records. -/
def ProcessState.process_count (st : ProcessState) : Nat :=
  st.processes.length

/-- Modelled from the spec: `ProcessState::is_service_running(project, service)`
is declared in `devspin_cli/src/process/state.rs`, which is not among the
sources (only its caller `start.rs:539` is).  Spec section 4.1: "true iff a
record with status Running matches both fields"; built on the real
`get_project_processes` filter, which already restricts to the project's
Running records. -/
def ProcessState.is_service_running (st : ProcessState)
    (project_name service_name : String) : Bool :=
  (st.get_project_processes project_name).any (fun p => p.service_name == service_name)

/-- For every registry state, `is_service_running` is true exactly when some
record in the registry has status Running and matches both the project name
and the service name; in particular it is false whenever no such record
exists, including on the empty registry. -/
theorem C3_is_service_running_iff (st : ProcessState) (proj svc : String) :
    st.is_service_running proj svc = true ↔
      ∃ e ∈ st.processes, e.2.status = ProcessStatus.Running ∧
        e.2.project_name = proj ∧ e.2.service_name = svc := by
  simp only [ProcessState.is_service_running, ProcessState.get_project_processes,
    List.any_eq_true, List.mem_filter, List.mem_map, Bool.and_eq_true, beq_iff_eq]
  constructor
  · rintro ⟨p, ⟨⟨e, he, rfl⟩, hproj, hrun⟩, hsvc⟩
    exact ⟨e, he, hrun, hproj, hsvc⟩
  · rintro ⟨e, he, hrun, hproj, hsvc⟩
    exact ⟨e.2, ⟨⟨e, he, rfl⟩, hproj, hrun⟩, hsvc⟩

/-- For every registry state and PID absent from the registry, removal is a
no-op that leaves the whole state (hence count and every record) unchanged,
and removal is idempotent unconditionally. -/
theorem C4_remove_process_absent_noop (st : ProcessState) (pid : Nat) :
    (pid ∉ st.processes.map Prod.fst → st.remove_process pid = st) ∧
    (st.remove_process pid).remove_process pid = st.remove_process pid := by
  constructor
  · intro habs
    have : st.processes.filter (fun e => e.1 != pid) = st.processes := by
      apply List.filter_eq_self.mpr
      intro e he
      simp only [bne_iff_ne, ne_eq, decide_eq_true_eq]
      intro h
      exact habs (List.mem_map.mpr ⟨e, he, h⟩)
    cases st with
    | mk processes state_file =>
      simp [ProcessState.remove_process] at this ⊢
      exact this
  · cases st with
    | mk processes state_file =>
      simp [ProcessState.remove_process, List.filter_filter]

/-- Sample clock value for concrete registries. -/
def sampleTime : SystemTime := ⟨1700000000, 123⟩

/-- Sample record for concrete registries. -/
def sampleInfo : ProcessInfo :=
  ⟨42, "db", "demo", "run db", sampleTime, ProcessStatus.Running⟩

/-- Sample one-record registry. -/
def sampleState : ProcessState := ⟨[(42, sampleInfo)], "processes.json"⟩

theorem C4_remove_process_absent_noop_witness :
    7 ∉ sampleState.processes.map Prod.fst ∧
    sampleState.remove_process 7 = sampleState ∧
    (sampleState.remove_process 7).remove_process 7 = sampleState.remove_process 7 :=
  ⟨by decide, (C4_remove_process_absent_noop sampleState 7).1 (by decide),
    (C4_remove_process_absent_noop sampleState 7).2⟩

/-- A sequence of registry mutations, for stating the per-PID uniqueness
invariant over arbitrary histories. -/
inductive RegistryOp where
  | add (pid : Nat) (service_name project_name command : String) (now : SystemTime)
  | remove (pid : Nat)

/-- Run one mutation against the registry. -/
def applyOp (st : ProcessState) : RegistryOp → ProcessState
  | RegistryOp.add pid sn pn c t => st.add_process pid sn pn c t
  | RegistryOp.remove pid => st.remove_process pid

/-- Run a history of mutations in order. -/
def applyOps (st : ProcessState) (ops : List RegistryOp) : ProcessState :=
  ops.foldl applyOp st

/-- A fresh registry (`ProcessState::new` with no prior state file). -/
def emptyProcessState : ProcessState := ⟨[], "processes.json"⟩

theorem add_process_keys_nodup (st : ProcessState) (pid : Nat)
    (sn pn c : String) (t : SystemTime)
    (h : (st.processes.map Prod.fst).Nodup) :
    ((st.add_process pid sn pn c t).processes.map Prod.fst).Nodup := by
  unfold ProcessState.add_process insertKey
  by_cases hmem : st.processes.any (fun e => e.1 == pid)
  · rw [if_pos hmem]
    have hmap : (st.processes.map
        (fun e => if e.1 == pid then (pid, newProcessInfo pid sn pn c t) else e)).map
        Prod.fst = st.processes.map Prod.fst := by
      rw [List.map_map]
      apply List.map_congr_left
      intro e _
      by_cases he : e.1 == pid
      · simp only [Function.comp_apply, if_pos he]
        exact (beq_iff_eq.mp he).symm
      · simp only [Function.comp_apply, if_neg he]
    rw [hmap]
    exact h
  · rw [if_neg hmem]
    simp only [List.any_eq_true, beq_iff_eq, not_exists, not_and] at hmem
    simp only [List.map_append, List.map_cons, List.map_nil]
    exact List.Nodup.append h (List.nodup_singleton _) (by
      intro x hx hx'
      obtain rfl : x = pid := by simpa using hx'
      obtain ⟨e, he, hfst⟩ := List.mem_map.mp hx
      exact hmem e he hfst)

theorem remove_process_keys_nodup (st : ProcessState) (pid : Nat)
    (h : (st.processes.map Prod.fst).Nodup) :
    ((st.remove_process pid).processes.map Prod.fst).Nodup :=
  h.sublist ((List.filter_sublist st.processes).map Prod.fst)

/-- The registry is a function from PID to at most one record: adding an
already-present PID replaces the stored record without growing the table, and
any history of add/remove operations from a fresh registry keeps the PIDs
unique. -/
theorem C10_registry_pid_unique :
    (∀ (st : ProcessState) (pid : Nat) (sn pn c : String) (t : SystemTime),
      pid ∈ st.processes.map Prod.fst →
      (st.add_process pid sn pn c t).process_count = st.process_count) ∧
    (∀ (st : ProcessState) (pid : Nat) (sn pn c : String) (t : SystemTime),
      ∀ e ∈ (st.add_process pid sn pn c t).processes,
        e.1 = pid → e.2 = newProcessInfo pid sn pn c t) ∧
    (∀ ops : List RegistryOp,
      ((applyOps emptyProcessState ops).processes.map Prod.fst).Nodup) := by
  refine ⟨?_, ?_, ?_⟩
  · intro st pid sn pn c t hmem
    obtain ⟨e, he, hfst⟩ := List.mem_map.mp hmem
    have hany : st.processes.any (fun e => e.1 == pid) = true := by
      simp only [List.any_eq_true, beq_iff_eq]
      exact ⟨e, he, hfst⟩
    unfold ProcessState.process_count ProcessState.add_process insertKey
    rw [if_pos hany, List.length_map]
  · intro st pid sn pn c t e he hfst
    unfold ProcessState.add_process insertKey at he
    by_cases hany : st.processes.any (fun e => e.1 == pid)
    · rw [if_pos hany] at he
      obtain ⟨e₀, _, heq⟩ := List.mem_map.mp he
      by_cases h₀ : e₀.1 == pid
      · rw [if_pos h₀] at heq
        rw [← heq]
      · rw [if_neg h₀] at heq
        rw [← heq] at hfst
        exact absurd (beq_iff_eq.mpr hfst) h₀
    · rw [if_neg hany] at he
      simp only [List.any_eq_true, beq_iff_eq, not_exists, not_and] at hany
      rcases List.mem_append.mp he with h | h
      · exact absurd hfst (hany e h)
      · obtain rfl : e = (pid, newProcessInfo pid sn pn c t) := by simpa using h
        rfl
  · intro ops
    have hgen : ∀ (L : List RegistryOp) (st : ProcessState),
        (st.processes.map Prod.fst).Nodup →
        ((applyOps st L).processes.map Prod.fst).Nodup := by
      intro L
      induction L with
      | nil => intro st h; exact h
      | cons op rest ih =>
        intro st h
        show ((applyOps (applyOp st op) rest).processes.map Prod.fst).Nodup
        apply ih
        cases op with
        | add pid sn pn c t => exact add_process_keys_nodup st pid sn pn c t h
        | remove pid => exact remove_process_keys_nodup st pid h
    exact hgen ops emptyProcessState (by simp [emptyProcessState])

theorem C10_registry_pid_unique_witness :
    42 ∈ sampleState.processes.map Prod.fst ∧
    (sampleState.add_process 42 "db" "demo" "run db again" sampleTime).process_count =
      sampleState.process_count :=
  ⟨by decide, C10_registry_pid_unique.1 sampleState 42 "db" "demo" "run db again"
    sampleTime (by decide)⟩

/-! ### Persisted state layout (state.rs:82-94, `save_state`/`load_state`)

`save_state` writes `serde_json::to_string_pretty(&self.processes)` and
`load_state` parses it back with `serde_json::from_str`.  The layout is
modelled at the level of JSON values (the structure serde derives for each
type); text printing/parsing of the value tree is `serde_json` library
territory, not code of this repository. -/

/-- JSON value tree.  Every number this program persists is an unsigned
integer (`u32` PIDs, `u64`/`u32` timestamp parts), so numbers are `Nat`. -/
inductive Json where
  | null
  | bool (b : Bool)
  | num (n : Nat)
  | str (s : String)
  | arr (elems : List Json)
  | obj (fields : List (String × Json))
  deriving Repr, BEq

/-- Parse an unsigned integer bounded by `bound`, the check serde performs
when deserializing into a fixed-width unsigned type. -/
def asNatLt (bound : Nat) : Json → Option Nat
  | Json.num n => if n < bound then some n else none
  | _ => none

/-- Parse a JSON string. -/
def asString : Json → Option String
  | Json.str s => some s
  | _ => none

/-- Serde's externally tagged layout for `ProcessStatus`: unit variants are
bare strings, the `Error(reason)` newtype variant is a one-field object. -/
def ProcessStatus.toJson : ProcessStatus → Json
  | ProcessStatus.Running => Json.str "Running"
  | ProcessStatus.Stopped => Json.str "Stopped"
  | ProcessStatus.Error r => Json.obj [("Error", Json.str r)]

/-- Inverse of `ProcessStatus.toJson`, as serde's derived deserializer
accepts the externally tagged layout. -/
def ProcessStatus.fromJson : Json → Option ProcessStatus
  | Json.str s =>
    if s = "Running" then some ProcessStatus.Running
    else if s = "Stopped" then some ProcessStatus.Stopped
    else none
  | Json.obj [(k, v)] =>
    if k = "Error" then (asString v).map ProcessStatus.Error else none
  | _ => none

/-- Serde's layout for `std::time::SystemTime`: a struct of seconds and
nanoseconds since the UNIX epoch. -/
def SystemTime.toJson (t : SystemTime) : Json :=
  Json.obj [("secs_since_epoch", Json.num t.secs_since_epoch),
            ("nanos_since_epoch", Json.num t.nanos_since_epoch)]

/-- Inverse of `SystemTime.toJson` (seconds are `u64`, nanoseconds `u32`). -/
def SystemTime.fromJson : Json → Option SystemTime
  | Json.obj fields => do
    let s ← (fields.lookup "secs_since_epoch").bind (asNatLt (2 ^ 64))
    let n ← (fields.lookup "nanos_since_epoch").bind (asNatLt (2 ^ 32))
    pure ⟨s, n⟩
  | _ => none

/-- The per-PID record document serde derives for `ProcessInfo`: an object
with one member per field, in declaration order. -/
def ProcessInfo.toJson (p : ProcessInfo) : Json :=
  Json.obj [("pid", Json.num p.pid),
            ("service_name", Json.str p.service_name),
            ("project_name", Json.str p.project_name),
            ("command", Json.str p.command),
            ("start_time", p.start_time.toJson),
            ("status", p.status.toJson)]

/-- Inverse of `ProcessInfo.toJson`, reading each field (`pid` is `u32`). -/
def ProcessInfo.fromJson : Json → Option ProcessInfo
  | Json.obj fields => do
    let pid ← (fields.lookup "pid").bind (asNatLt (2 ^ 32))
    let sn ← (fields.lookup "service_name").bind asString
    let pn ← (fields.lookup "project_name").bind asString
    let c ← (fields.lookup "command").bind asString
    let t ← (fields.lookup "start_time").bind SystemTime.fromJson
    let status ← (fields.lookup "status").bind ProcessStatus.fromJson
    pure ⟨pid, sn, pn, c, t, status⟩
  | _ => none

/-- The whole persisted document: serde serializes `HashMap<u32, ProcessInfo>`
as an object whose member names are the stringified PIDs. -/
def processesToJson (l : List (Nat × ProcessInfo)) : Json :=
  Json.obj (l.map (fun e => (toString e.1, ProcessInfo.toJson e.2)))

/-- Width constraints the Rust types impose on a record: `pid : u32`, and the
timestamp's `u64` seconds / `u32` nanoseconds. -/
def ProcessInfo.WF (p : ProcessInfo) : Prop :=
  p.pid < 2 ^ 32 ∧ p.start_time.secs_since_epoch < 2 ^ 64 ∧
    p.start_time.nanos_since_epoch < 2 ^ 32

instance (p : ProcessInfo) : Decidable p.WF := by
  unfold ProcessInfo.WF
  infer_instance

/-- Serializing any representable `ProcessRecord` to the persisted per-PID
document and reparsing it yields the record back, equal in every field:
pid, service name, project name, command, start timestamp, and status
including an `Error` reason text. -/
theorem C9_process_record_roundtrip (p : ProcessInfo) (h : p.WF) :
    ProcessInfo.fromJson p.toJson = some p := by
  obtain ⟨hpid, hsecs, hnanos⟩ := h
  cases p with
  | mk pid sn pn c t status =>
    cases t with
    | mk secs nanos =>
      cases status <;>
        simp_all [ProcessInfo.toJson, ProcessInfo.fromJson, SystemTime.toJson,
          SystemTime.fromJson, ProcessStatus.toJson, ProcessStatus.fromJson,
          asNatLt, asString, List.lookup]

/-- Witness: the round-trip at a concrete record carrying an `Error` reason. -/
theorem C9_process_record_roundtrip_witness :
    ProcessInfo.WF ⟨42, "db", "demo", "run db", ⟨1700000000, 123⟩,
      ProcessStatus.Error "exited"⟩ ∧
    ProcessInfo.fromJson (ProcessInfo.toJson ⟨42, "db", "demo", "run db",
      ⟨1700000000, 123⟩, ProcessStatus.Error "exited"⟩) =
      some ⟨42, "db", "demo", "run db", ⟨1700000000, 123⟩,
        ProcessStatus.Error "exited"⟩ :=
  ⟨by decide, C9_process_record_roundtrip _ (by decide)⟩

/-! ### Shutdown machinery (devspin_cli/src/cli/stop.rs) -/

/-- The two `ToolError` variants the embedded code paths construct.
(`error.rs` is not among the sources; the variants and their `String` payloads
are taken from the construction sites in start.rs and stop.rs.) -/
inductive ToolError where
  | ConfigError (msg : String)
  | ProcessError (msg : String)
  deriving Repr, DecidableEq

/-- Modelled from the spec: `ToolError`'s `Display` rendering (`error.rs` is
not among the sources).  The reason text is passed through, which is what the
`format!("...: {}", e)` wrapping sites in stop.rs surface to the operator. -/
def ToolError.display : ToolError → String
  | ToolError.ConfigError m => m
  | ToolError.ProcessError m => m

/-- Mirror of `StopArgs` (stop.rs:10-42). -/
structure StopArgs where
  project_name : Option String
  only : Option (List String)
  skip : Option (List String)
  force : Bool
  all : Bool
  timeout : Nat
  verbose : Bool
  dry_run : Bool
  deriving Repr, DecidableEq

/-- Embedding of `StopArgs::validate_args` (stop.rs:63-77): `--all` excludes a
project name, and `--only` excludes `--skip`. -/
def StopArgs.validate_args (args : StopArgs) : Except ToolError Unit :=
  if args.all && args.project_name.isSome then
    Except.error (ToolError.ConfigError "Cannot use both --all and project name")
  else if args.only.isSome && args.skip.isSome then
    Except.error (ToolError.ConfigError "Cannot use both --only and --skip")
  else
    Except.ok ()

/-- Abstraction of the OS behavior stop.rs observes per PID:
`graceful_exit pid` is whether the SIGTERM polling loop of
`stop_single_service` (stop.rs:194-199) observes the process gone before the
timeout elapses; `forced_exit pid` is whether, after SIGKILL and the fixed
500 ms grace (stop.rs:213-218), `is_process_running` reports the process
gone.  Delivery of the `kill` commands themselves is modelled as
succeeding. -/
structure StopEnv where
  graceful_exit : Nat → Bool
  forced_exit : Nat → Bool

/-- Signals the shutdown path sends, in order. -/
inductive StopAction where
  | sigterm (pid : Nat)
  | sigkill (pid : Nat)
  deriving Repr, DecidableEq

/-- The timeout error of `stop_single_service` (stop.rs:202-205), naming the
service, its PID and the timeout. -/
def gracefulTimeoutMsg (args : StopArgs) (svc : ProcessInfo) : String :=
  "Service " ++ svc.service_name ++ " (PID: " ++ toString svc.pid ++
    ") did not stop within " ++ toString args.timeout ++ " seconds"

/-- The abort error of `stop_services_gracefully` (stop.rs:165-168) when
`force` was not requested, wrapping the rendered inner error. -/
def gracefulAbortMsg (args : StopArgs) (svc : ProcessInfo) : String :=
  "Failed to stop service " ++ svc.service_name ++ ": " ++
    (ToolError.ProcessError (gracefulTimeoutMsg args svc)).display ++
    ". Use --force to kill it"

/-- The verification error of `force_stop_service` (stop.rs:219-222), naming
the service and its PID. -/
def forceFailMsg (svc : ProcessInfo) : String :=
  "Failed to force stop service " ++ svc.service_name ++ " (PID: " ++
    toString svc.pid ++ ")"

/-- Embedding of `stop_single_service` (stop.rs:182-206): send SIGTERM, poll
every 100 ms up to the timeout; success iff the poll observes the process
gone, otherwise the timeout error naming service and PID. -/
def stop_single_service (args : StopArgs) (env : StopEnv) (svc : ProcessInfo) :
    Except ToolError Unit × List StopAction :=
  if env.graceful_exit svc.pid then
    (Except.ok (), [StopAction.sigterm svc.pid])
  else
    (Except.error (ToolError.ProcessError (gracefulTimeoutMsg args svc)),
      [StopAction.sigterm svc.pid])

/-- Embedding of `force_stop_service` (stop.rs:208-226): SIGKILL, the fixed
500 ms grace, then an error if the process is still observed running. -/
def force_stop_service (env : StopEnv) (svc : ProcessInfo) :
    Except ToolError Unit × List StopAction :=
  if env.forced_exit svc.pid then
    (Except.ok (), [StopAction.sigkill svc.pid])
  else
    (Except.error (ToolError.ProcessError (forceFailMsg svc)),
      [StopAction.sigkill svc.pid])

/-- Embedding of the loop of `stop_services_gracefully` (stop.rs:138-180) over
the already-sorted list, threading the global registry: on graceful success
deregister and continue; on graceful failure either escalate when `force` was
requested (deregistering only if the forced stop verifies, else propagating
its error) or abort the whole sequence with the wrapping error. -/
def stop_services_gracefully (args : StopArgs) (env : StopEnv) :
    List ProcessInfo → ProcessState →
      Except ToolError Unit × ProcessState × List StopAction
  | [], reg => (Except.ok (), reg, [])
  | svc :: rest, reg =>
    match stop_single_service args env svc with
    | (Except.ok _, acts) =>
      let r := stop_services_gracefully args env rest (reg.remove_process svc.pid)
      (r.1, r.2.1, acts ++ r.2.2)
    | (Except.error _, acts) =>
      if args.force then
        match force_stop_service env svc with
        | (Except.ok _, acts₂) =>
          let r := stop_services_gracefully args env rest (reg.remove_process svc.pid)
          (r.1, r.2.1, acts ++ acts₂ ++ r.2.2)
        | (Except.error e₂, acts₂) =>
          (Except.error e₂, reg, acts ++ acts₂)
      else
        (Except.error (ToolError.ProcessError (gracefulAbortMsg args svc)),
          reg, acts)

/-- Embedding of `sort_services_for_shutdown` (stop.rs:228-237): a plain
reversal of the enumerated record list (the source comments "Simple reversal -
in a real implementation you'd want proper dependency analysis"). -/
def sort_services_for_shutdown (services : List ProcessInfo) : List ProcessInfo :=
  services.reverse

/-- Embedding of `should_stop_service` (stop.rs:239-253). -/
def StopArgs.should_stop_service (args : StopArgs) (svc : ProcessInfo) : Bool :=
  (match args.only with
   | some only_services => only_services.contains svc.service_name
   | none => true) &&
  (match args.skip with
   | some skip_services => !(skip_services.contains svc.service_name)
   | none => true)

/-- Embedding of `ProcessManager::get_running_services` (manager.rs:7-37):
every record currently in the registry, in the map's enumeration order (the
model list's order stands for the `HashMap`'s unspecified iteration order;
despite the name, no status filtering happens here). -/
def get_running_services (reg : ProcessState) : List ProcessInfo :=
  reg.get_all_processes

/-- Embedding of `get_services_for_project` (stop.rs:319-324). -/
def get_services_for_project (reg : ProcessState) (project_name : String) :
    List ProcessInfo :=
  (get_running_services reg).filter (fun svc => svc.project_name == project_name)

/-- Embedding of `stop_single_project` (stop.rs:105-136): enumerate the
project's records, apply only/skip filtering, reverse, then stop. -/
def stop_single_project (args : StopArgs) (env : StopEnv) (reg : ProcessState)
    (project_name : String) :
    Except ToolError Unit × ProcessState × List StopAction :=
  let services := get_services_for_project reg project_name
  if services.isEmpty then (Except.ok (), reg, [])
  else
    let services_to_stop := services.filter (fun s => args.should_stop_service s)
    if services_to_stop.isEmpty then (Except.ok (), reg, [])
    else
      stop_services_gracefully args env (sort_services_for_shutdown services_to_stop) reg

/-- The loop of `stop_all_projects` (stop.rs:95-98): stop each project,
aborting at the first error (`?`). -/
def stop_projects_loop (args : StopArgs) (env : StopEnv) :
    List String → ProcessState →
      Except ToolError Unit × ProcessState × List StopAction
  | [], reg => (Except.ok (), reg, [])
  | p :: rest, reg =>
    match stop_single_project args env reg p with
    | (Except.ok _, reg', acts) =>
      let r := stop_projects_loop args env rest reg'
      (r.1, r.2.1, acts ++ r.2.2)
    | (Except.error e, reg', acts) => (Except.error e, reg', acts)

/-- Embedding of `stop_all_projects` (stop.rs:79-103): the distinct project
names (the `HashSet`'s unspecified order modelled by first-occurrence order),
then the per-project sequence for each. -/
def stop_all_projects (args : StopArgs) (env : StopEnv) (reg : ProcessState) :
    Except ToolError Unit × ProcessState × List StopAction :=
  let projects := ((get_running_services reg).map (fun s => s.project_name)).eraseDups
  if projects.isEmpty then (Except.ok (), reg, [])
  else stop_projects_loop args env projects reg

/-- Embedding of `StopArgs::execute` (stop.rs:45-61): validate first, then
dry-run (print-only), `--all`, a named project, or the missing-name error. -/
def StopArgs.execute (args : StopArgs) (env : StopEnv) (reg : ProcessState) :
    Except ToolError Unit × ProcessState × List StopAction :=
  match args.validate_args with
  | Except.error e => (Except.error e, reg, [])
  | Except.ok _ =>
    if args.dry_run then (Except.ok (), reg, [])
    else if args.all then stop_all_projects args env reg
    else
      match args.project_name with
      | some project_name => stop_single_project args env reg project_name
      | none =>
        (Except.error (ToolError.ConfigError
          "Must specify either a project name or --all"), reg, [])

theorem removeFold_mem (pre : List ProcessInfo) :
    ∀ (reg : ProcessState) (e : Nat × ProcessInfo), e ∈ reg.processes →
      e.1 ∉ pre.map ProcessInfo.pid →
      e ∈ (pre.foldl (fun acc u => acc.remove_process u.pid) reg).processes := by
  induction pre with
  | nil =>
    intro reg e he _
    exact he
  | cons u rest ih =>
    intro reg e he hnot
    simp only [List.map_cons, List.mem_cons, not_or] at hnot
    show e ∈ (rest.foldl (fun acc u => acc.remove_process u.pid)
      (reg.remove_process u.pid)).processes
    apply ih
    · refine List.mem_filter.mpr ⟨he, ?_⟩
      simp [hnot.1]
    · exact hnot.2

/-- For every shutdown run without force in which every service before `svc`
in the shutdown order stops gracefully and `svc`'s process does not exit
within the timeout, the whole sequence aborts with the ProcessError built
from `gracefulAbortMsg` (which names the stuck service and its PID via
`gracefulTimeoutMsg`), the registry keeps exactly the records whose PIDs were
not already stopped — so the stuck service's record and every
not-yet-processed record remain, unchanged (a Running record stays
Running). -/
theorem C6_graceful_timeout_aborts (args : StopArgs) (env : StopEnv)
    (pre : List ProcessInfo) (svc : ProcessInfo) (post : List ProcessInfo)
    (reg : ProcessState)
    (hforce : args.force = false)
    (hpre : ∀ u ∈ pre, env.graceful_exit u.pid = true)
    (hsvc : env.graceful_exit svc.pid = false) :
    (stop_services_gracefully args env (pre ++ svc :: post) reg).1 =
      Except.error (ToolError.ProcessError (gracefulAbortMsg args svc)) ∧
    (stop_services_gracefully args env (pre ++ svc :: post) reg).2.1 =
      pre.foldl (fun acc u => acc.remove_process u.pid) reg ∧
    (∀ e ∈ reg.processes, e.1 ∉ pre.map ProcessInfo.pid →
      e ∈ (stop_services_gracefully args env (pre ++ svc :: post) reg).2.1.processes) := by
  revert hpre
  induction pre generalizing reg with
  | nil =>
    intro _
    refine ⟨?_, ?_, ?_⟩ <;>
      simp [stop_services_gracefully, stop_single_service, hsvc, hforce]
  | cons u rest ih =>
    intro hpre
    have hu : env.graceful_exit u.pid = true := hpre u (List.mem_cons_self _ _)
    have hrest : ∀ v ∈ rest, env.graceful_exit v.pid = true :=
      fun v hv => hpre v (List.mem_cons_of_mem _ hv)
    have hstep : stop_services_gracefully args env ((u :: rest) ++ svc :: post) reg =
        ((stop_services_gracefully args env (rest ++ svc :: post)
            (reg.remove_process u.pid)).1,
         (stop_services_gracefully args env (rest ++ svc :: post)
            (reg.remove_process u.pid)).2.1,
         [StopAction.sigterm u.pid] ++
           (stop_services_gracefully args env (rest ++ svc :: post)
             (reg.remove_process u.pid)).2.2) := by
      simp [stop_services_gracefully, stop_single_service, hu]
    obtain ⟨ih1, ih2, ih3⟩ := ih (reg.remove_process u.pid) hrest
    refine ⟨?_, ?_, ?_⟩
    · rw [hstep]
      exact ih1
    · rw [hstep]
      exact ih2
    · intro e he hnot
      rw [hstep]
      simp only [List.map_cons, List.mem_cons, not_or] at hnot
      apply ih3
      · refine List.mem_filter.mpr ⟨he, ?_⟩
        simp [hnot.1]
      · exact hnot.2

/-- Stop arguments for a single project, defaults otherwise (no force). -/
def cexStopArgsNoForce : StopArgs :=
  { project_name := some "demo", only := none, skip := none, force := false,
    all := false, timeout := 30, verbose := false, dry_run := false }

/-- Same arguments with `--force`. -/
def cexStopArgsForce : StopArgs :=
  { cexStopArgsNoForce with force := true }

/-- An OS in which the process neither exits gracefully nor is observed dead
after SIGKILL. -/
def stubbornEnv : StopEnv := ⟨fun _ => false, fun _ => false⟩

/-- An OS in which the process ignores SIGTERM but dies to SIGKILL. -/
def compliantForceEnv : StopEnv := ⟨fun _ => false, fun _ => true⟩

theorem C6_graceful_timeout_aborts_witness :
    cexStopArgsNoForce.force = false ∧
    stubbornEnv.graceful_exit sampleInfo.pid = false ∧
    (stop_services_gracefully cexStopArgsNoForce stubbornEnv [sampleInfo]
        sampleState).1 =
      Except.error (ToolError.ProcessError
        (gracefulAbortMsg cexStopArgsNoForce sampleInfo)) ∧
    (stop_services_gracefully cexStopArgsNoForce stubbornEnv [sampleInfo]
        sampleState).2.1 = sampleState :=
  ⟨rfl, rfl,
    (C6_graceful_timeout_aborts cexStopArgsNoForce stubbornEnv [] sampleInfo []
      sampleState rfl (by simp) rfl).1,
    (C6_graceful_timeout_aborts cexStopArgsNoForce stubbornEnv [] sampleInfo []
      sampleState rfl (by simp) rfl).2.1⟩

/-- For every shutdown run with force requested in which every service before
`svc` stops gracefully and `svc`'s process does not exit within the graceful
timeout: a SIGKILL is sent; if the OS then observes the process gone, `svc`'s
record is removed and the sequence continues over the remaining services; if
the process is still observed running after the fixed grace, the call fails
with the ProcessError of `forceFailMsg` (naming service and PID) and `svc`'s
record is not removed. -/
theorem C7_force_escalation (args : StopArgs) (env : StopEnv)
    (pre : List ProcessInfo) (svc : ProcessInfo) (post : List ProcessInfo)
    (reg : ProcessState)
    (hforce : args.force = true)
    (hpre : ∀ u ∈ pre, env.graceful_exit u.pid = true)
    (hsvc : env.graceful_exit svc.pid = false) :
    (env.forced_exit svc.pid = true →
      ((stop_services_gracefully args env (pre ++ svc :: post) reg).1 =
        (stop_services_gracefully args env post
          ((pre.foldl (fun acc u => acc.remove_process u.pid)
            reg).remove_process svc.pid)).1 ∧
       (stop_services_gracefully args env (pre ++ svc :: post) reg).2.1 =
        (stop_services_gracefully args env post
          ((pre.foldl (fun acc u => acc.remove_process u.pid)
            reg).remove_process svc.pid)).2.1 ∧
       StopAction.sigkill svc.pid ∈
        (stop_services_gracefully args env (pre ++ svc :: post) reg).2.2)) ∧
    (env.forced_exit svc.pid = false →
      ((stop_services_gracefully args env (pre ++ svc :: post) reg).1 =
        Except.error (ToolError.ProcessError (forceFailMsg svc)) ∧
       (stop_services_gracefully args env (pre ++ svc :: post) reg).2.1 =
        pre.foldl (fun acc u => acc.remove_process u.pid) reg ∧
       StopAction.sigkill svc.pid ∈
        (stop_services_gracefully args env (pre ++ svc :: post) reg).2.2)) := by
  revert hpre
  induction pre generalizing reg with
  | nil =>
    intro _
    constructor
    · intro hfe
      refine ⟨?_, ?_, ?_⟩ <;>
        simp [stop_services_gracefully, stop_single_service, force_stop_service,
          hsvc, hforce, hfe]
    · intro hfe
      refine ⟨?_, ?_, ?_⟩ <;>
        simp [stop_services_gracefully, stop_single_service, force_stop_service,
          hsvc, hforce, hfe]
  | cons u rest ih =>
    intro hpre
    have hu : env.graceful_exit u.pid = true := hpre u (List.mem_cons_self _ _)
    have hrest : ∀ v ∈ rest, env.graceful_exit v.pid = true :=
      fun v hv => hpre v (List.mem_cons_of_mem _ hv)
    have hstep : stop_services_gracefully args env ((u :: rest) ++ svc :: post) reg =
        ((stop_services_gracefully args env (rest ++ svc :: post)
            (reg.remove_process u.pid)).1,
         (stop_services_gracefully args env (rest ++ svc :: post)
            (reg.remove_process u.pid)).2.1,
         [StopAction.sigterm u.pid] ++
           (stop_services_gracefully args env (rest ++ svc :: post)
             (reg.remove_process u.pid)).2.2) := by
      simp [stop_services_gracefully, stop_single_service, hu]
    obtain ⟨ihT, ihF⟩ := ih (reg.remove_process u.pid) hrest
    constructor
    · intro hfe
      obtain ⟨h1, h2, h3⟩ := ihT hfe
      refine ⟨?_, ?_, ?_⟩
      · rw [hstep]; exact h1
      · rw [hstep]; exact h2
      · rw [hstep]
        exact List.mem_append_right _ h3
    · intro hfe
      obtain ⟨h1, h2, h3⟩ := ihF hfe
      refine ⟨?_, ?_, ?_⟩
      · rw [hstep]; exact h1
      · rw [hstep]; exact h2
      · rw [hstep]
        exact List.mem_append_right _ h3

/-- The claim as stated is false: with force requested and a process the OS
never confirms dead, the stop call does not succeed and the record is not
removed — `force_stop_service` verifies liveness after the 500 ms grace and
fails, and the registry keeps the record. -/
theorem C7_force_escalation_counterexample :
    (stop_services_gracefully cexStopArgsForce stubbornEnv [sampleInfo]
        sampleState).1 =
      Except.error (ToolError.ProcessError (forceFailMsg sampleInfo)) ∧
    (stop_services_gracefully cexStopArgsForce stubbornEnv [sampleInfo]
        sampleState).2.1 = sampleState ∧
    (42, sampleInfo) ∈ (stop_services_gracefully cexStopArgsForce stubbornEnv
        [sampleInfo] sampleState).2.1.processes :=
  ⟨rfl, rfl, by decide⟩

theorem C7_force_escalation_witness :
    cexStopArgsForce.force = true ∧
    compliantForceEnv.graceful_exit sampleInfo.pid = false ∧
    compliantForceEnv.forced_exit sampleInfo.pid = true ∧
    (stop_services_gracefully cexStopArgsForce compliantForceEnv [sampleInfo]
        sampleState).2.1 =
      (stop_services_gracefully cexStopArgsForce compliantForceEnv []
        (sampleState.remove_process sampleInfo.pid)).2.1 ∧
    StopAction.sigkill sampleInfo.pid ∈
      (stop_services_gracefully cexStopArgsForce compliantForceEnv [sampleInfo]
        sampleState).2.2 :=
  ⟨rfl, rfl, rfl,
    ((C7_force_escalation cexStopArgsForce compliantForceEnv [] sampleInfo []
      sampleState rfl (by simp) rfl).1 rfl).2.1,
    ((C7_force_escalation cexStopArgsForce compliantForceEnv [] sampleInfo []
      sampleState rfl (by simp) rfl).1 rfl).2.2⟩

/-- Startup specs of the db/api/web scenario, submitted in order
[web, api, db]. -/
def scnSpecs : List Service :=
  [mkService "web" ["api"], mkService "api" ["db"], mkService "db" []]

/-- Running records of the three started services. -/
def dbRec : ProcessInfo := ⟨1, "db", "demo", "run db", sampleTime, ProcessStatus.Running⟩

/-- Running record of the api service (depends on db at the spec level). -/
def apiRec : ProcessInfo := ⟨2, "api", "demo", "run api", sampleTime, ProcessStatus.Running⟩

/-- Running record of the web service (depends on api at the spec level). -/
def webRec : ProcessInfo := ⟨3, "web", "demo", "run web", sampleTime, ProcessStatus.Running⟩

/-- A legitimate enumeration of the registry's `HashMap` (iteration order is
unspecified): api first, then db, then web. -/
def scrambledRegistry : ProcessState :=
  ⟨[(2, apiRec), (1, dbRec), (3, webRec)], "processes.json"⟩

/-- An OS in which every process exits promptly on SIGTERM. -/
def allGracefulEnv : StopEnv := ⟨fun _ => true, fun _ => true⟩

/-- The code does not stop services in the reverse of the DependencyResolver
startup order: it reverses the registry's arbitrary enumeration order.  For
the scenario's specs the startup order is [db, api, web], so the claimed
shutdown order is [web, api, db]; but on the enumeration
[api, db, web] the code stops [web, db, api] — SIGTERM reaches db (PID 1)
before its dependent api (PID 2). -/
theorem C2_shutdown_order_not_reverse_of_startup :
    namesOf (sort_services_by_dependencies scnSpecs) = ["db", "api", "web"] ∧
    (sort_services_for_shutdown (get_services_for_project scrambledRegistry
      "demo")).map ProcessInfo.service_name = ["web", "db", "api"] ∧
    (["web", "db", "api"] : List String) ≠ (["db", "api", "web"] : List String).reverse ∧
    (stop_single_project cexStopArgsNoForce allGracefulEnv scrambledRegistry
        "demo").2.2 =
      [StopAction.sigterm 3, StopAction.sigterm 1, StopAction.sigterm 2] :=
  ⟨by decide, by decide, by decide, by decide⟩

/-! ### Startup machinery (devspin_cli/src/cli/start.rs) -/

/-- Mirror of `StartArgs` (start.rs:11-39). -/
structure StartArgs where
  name : String
  env : Option String
  verbose : Bool
  background : Bool
  dry_run : Bool
  only : Option (List String)
  skip : Option (List String)
  deriving Repr, DecidableEq

/-- Embedding of `StartArgs::validate_args` (start.rs:585-614): the filter
exclusivity check first, then the blank-entry checks.  The terminal's colored
"ERROR:" prefix is kept as plain text. -/
def StartArgs.validate_args (args : StartArgs) : Except ToolError Unit :=
  if args.only.isSome && args.skip.isSome then
    Except.error (ToolError.ConfigError
      "ERROR: Cannot use both --only and --skip filters simultaneously")
  else if (match args.only with
           | some l => l.any (fun s => s.trim.isEmpty)
           | none => false) then
    Except.error (ToolError.ConfigError "ERROR: Empty service name in --only filter")
  else if (match args.skip with
           | some l => l.any (fun s => s.trim.isEmpty)
           | none => false) then
    Except.error (ToolError.ConfigError "ERROR: Empty service name in --skip filter")
  else
    Except.ok ()

/-- Embedding of `should_start_service` (start.rs:272-285). -/
def StartArgs.should_start_service (args : StartArgs) (service : Service) : Bool :=
  (match args.only with
   | some only_services => only_services.contains service.name
   | none => true) &&
  (match args.skip with
   | some skip_services => !(skip_services.contains service.name)
   | none => true)

/-- The fields of `ProjectConfig` (from the yaml config model) that the
embedded start paths consult: the project name and the service list.  The
environment map, base path, commands and hooks only shape the spawned
command's surroundings, which the `spawn` action abstracts. -/
structure ProjectConfig where
  name : String
  description : Option String
  services : Option (List Service)
  deriving Repr, DecidableEq

/-- Observable steps of the startup path, in order. -/
inductive StartAction where
  | sleepWaitingFor (service dep : String)
  | spawn (service : String) (pid : Nat)
  | healthWait (service : String)
  deriving Repr, DecidableEq

/-- Abstraction of the OS behavior start.rs observes: the PID assigned to a
service's spawned command, whether the spawn syscall succeeds, and the clock
used for the registry record. -/
structure StartEnv where
  spawn_pid : String → Nat
  spawn_ok : String → Bool
  now : SystemTime

/-- The dependency loop of `wait_for_dependencies` (start.rs:538-548): each
dependency is checked once; a not-running dependency produces a single fixed
1 s sleep, after which the loop moves to the next dependency without
re-checking. -/
def wait_deps_loop (reg : ProcessState) (proj : String) (svc_name : String) :
    List String → List StartAction
  | [] => []
  | dep :: rest =>
    if reg.is_service_running proj dep then
      wait_deps_loop reg proj svc_name rest
    else
      StartAction.sleepWaitingFor svc_name dep :: wait_deps_loop reg proj svc_name rest

/-- Embedding of `wait_for_dependencies` (start.rs:537-550): run the one-pass
dependency loop and return Ok unconditionally. -/
def wait_for_dependencies (svc : Service) (reg : ProcessState) (proj : String) :
    Except ToolError Unit × List StartAction :=
  (Except.ok (), wait_deps_loop reg proj svc.name svc.dependencies)

/-- Embedding of the per-service loop of `start_services` (start.rs:333-401)
over the dependency-sorted list: filtered services are skipped; otherwise wait
for dependencies (always Ok), spawn (a failing spawn aborts the rest with the
converted io error — modelled from the spec as a ProcessError naming the
service, `error.rs` being absent), register the Running record, then the
health gate (a plain wait, always Ok). -/
def start_services_loop (args : StartArgs) (env : StartEnv) (proj : String) :
    List Service → ProcessState →
      Except ToolError Unit × ProcessState × List StartAction
  | [], reg => (Except.ok (), reg, [])
  | svc :: rest, reg =>
    if args.should_start_service svc then
      let w := wait_for_dependencies svc reg proj
      if env.spawn_ok svc.name then
        let pid := env.spawn_pid svc.name
        let reg' := reg.add_process pid svc.name proj svc.command env.now
        let h : List StartAction :=
          match svc.health_check with
          | some _ => [StartAction.healthWait svc.name]
          | none => []
        let r := start_services_loop args env proj rest reg'
        (r.1, r.2.1, w.2 ++ StartAction.spawn svc.name pid :: h ++ r.2.2)
      else
        (Except.error (ToolError.ProcessError
          ("Failed to start service " ++ svc.name)), reg, w.2)
    else
      start_services_loop args env proj rest reg

/-- Embedding of `start_services` (start.rs:311-409): sort by dependencies,
then run the loop; a project without a service list starts nothing. -/
def start_services (args : StartArgs) (env : StartEnv) (project : ProjectConfig)
    (reg : ProcessState) : Except ToolError Unit × ProcessState × List StartAction :=
  match project.services with
  | some services =>
    start_services_loop args env project.name
      (sort_services_by_dependencies services) reg
  | none => (Except.ok (), reg, [])

/-- The per-service loop of `start_in_background` (start.rs:448-494): each
spawn failure is reported and skipped (no abort), successes are registered. -/
def background_loop (env : StartEnv) (proj : String) :
    List Service → ProcessState → ProcessState × List StartAction
  | [], reg => (reg, [])
  | svc :: rest, reg =>
    if env.spawn_ok svc.name then
      let pid := env.spawn_pid svc.name
      let reg' := reg.add_process pid svc.name proj svc.command env.now
      let r := background_loop env proj rest reg'
      (r.1, StartAction.spawn svc.name pid :: r.2)
    else
      background_loop env proj rest reg

/-- Embedding of `start_in_background` (start.rs:411-503): pre-filter the
services, then spawn each with individual error handling; always Ok. -/
def start_in_background (args : StartArgs) (env : StartEnv)
    (project : ProjectConfig) (reg : ProcessState) :
    Except ToolError Unit × ProcessState × List StartAction :=
  let services_to_start :=
    (match project.services with
     | some s => s
     | none => []).filter (fun s => args.should_start_service s)
  if services_to_start.isEmpty then (Except.ok (), reg, [])
  else
    let r := background_loop env project.name services_to_start reg
    (Except.ok (), r.1, r.2)

/-- Outcomes of the filesystem/config stages of `StartArgs::execute`: whether
`{name}/devspin.yaml` exists, the result of loading it, and the result of
loading the optional env file. -/
structure StartLoadEnv where
  config_exists : Bool
  load_project : Except ToolError ProjectConfig
  env_load : Except ToolError Unit

/-- Embedding of `StartArgs::execute` (start.rs:43-93): validate, check the
config path, load the project, dry-run (print-only), load the env file if
given, then either the background path (which short-circuits) or the
foreground `start_services` on the global registry. -/
def StartArgs.execute (args : StartArgs) (lenv : StartLoadEnv) (senv : StartEnv)
    (reg : ProcessState) : Except ToolError Unit × ProcessState × List StartAction :=
  match args.validate_args with
  | Except.error e => (Except.error e, reg, [])
  | Except.ok _ =>
    if !lenv.config_exists then
      (Except.error (ToolError.ConfigError ("Project '" ++ args.name ++
        "' not found at: " ++ args.name ++ "/devspin.yaml")), reg, [])
    else
      match lenv.load_project with
      | Except.error e => (Except.error e, reg, [])
      | Except.ok project =>
        if args.dry_run then (Except.ok (), reg, [])
        else
          match args.env with
          | some _ =>
            match lenv.env_load with
            | Except.error e => (Except.error e, reg, [])
            | Except.ok _ =>
              if args.background then start_in_background args senv project reg
              else start_services args senv project reg
          | none =>
            if args.background then start_in_background args senv project reg
            else start_services args senv project reg

/-- For every invocation of start or stop with both the only and the skip
filter supplied, execution stops at validation with a ConfigError: no spawn,
no signal, and no registry mutation has happened (empty action trace,
registry returned unchanged). -/
theorem C5_only_skip_mutually_exclusive (sargs : StartArgs) (targs : StopArgs)
    (lenv : StartLoadEnv) (senv : StartEnv) (oenv : StopEnv)
    (reg reg' : ProcessState)
    (hs₁ : sargs.only.isSome = true) (hs₂ : sargs.skip.isSome = true)
    (ht₁ : targs.only.isSome = true) (ht₂ : targs.skip.isSome = true) :
    sargs.execute lenv senv reg =
      (Except.error (ToolError.ConfigError
        "ERROR: Cannot use both --only and --skip filters simultaneously"),
        reg, []) ∧
    (∃ msg, targs.execute oenv reg' =
      (Except.error (ToolError.ConfigError msg), reg', [])) := by
  constructor
  · simp [StartArgs.execute, StartArgs.validate_args, hs₁, hs₂]
  · by_cases hall : targs.all && targs.project_name.isSome
    · refine ⟨"Cannot use both --all and project name", ?_⟩
      simp [StopArgs.execute, StopArgs.validate_args, hall]
    · refine ⟨"Cannot use both --only and --skip", ?_⟩
      simp [StopArgs.execute, StopArgs.validate_args, hall, ht₁, ht₂]

/-- Start arguments with both filters supplied. -/
def bothFiltersStart : StartArgs :=
  ⟨"demo", none, false, false, false, some ["api"], some ["db"]⟩

/-- Stop arguments with both filters supplied. -/
def bothFiltersStop : StopArgs :=
  { project_name := some "demo", only := some ["api"], skip := some ["db"],
    force := false, all := false, timeout := 30, verbose := false,
    dry_run := false }

/-- A load environment in which every filesystem stage would succeed. -/
def trivialLoadEnv : StartLoadEnv :=
  ⟨true, Except.ok ⟨"demo", none, none⟩, Except.ok ()⟩

/-- An OS in which every spawn succeeds with PID 100. -/
def trivialStartEnv : StartEnv := ⟨fun _ => 100, fun _ => true, sampleTime⟩

theorem C5_only_skip_mutually_exclusive_witness :
    bothFiltersStart.only.isSome = true ∧ bothFiltersStart.skip.isSome = true ∧
    bothFiltersStop.only.isSome = true ∧ bothFiltersStop.skip.isSome = true ∧
    bothFiltersStart.execute trivialLoadEnv trivialStartEnv sampleState =
      (Except.error (ToolError.ConfigError
        "ERROR: Cannot use both --only and --skip filters simultaneously"),
        sampleState, []) ∧
    (∃ msg, bothFiltersStop.execute stubbornEnv sampleState =
      (Except.error (ToolError.ConfigError msg), sampleState, [])) :=
  ⟨rfl, rfl, rfl, rfl,
    (C5_only_skip_mutually_exclusive bothFiltersStart bothFiltersStop
      trivialLoadEnv trivialStartEnv stubbornEnv sampleState sampleState
      rfl rfl rfl rfl).1,
    (C5_only_skip_mutually_exclusive bothFiltersStart bothFiltersStop
      trivialLoadEnv trivialStartEnv stubbornEnv sampleState sampleState
      rfl rfl rfl rfl).2⟩

theorem wait_deps_loop_filter (reg : ProcessState) (proj nm : String) :
    ∀ deps : List String,
      wait_deps_loop reg proj nm deps =
        (deps.filter (fun d => !(reg.is_service_running proj d))).map
          (fun d => StartAction.sleepWaitingFor nm d) := by
  intro deps
  induction deps with
  | nil => rfl
  | cons dep rest ih =>
    by_cases hdep : reg.is_service_running proj dep
    · simp [wait_deps_loop, hdep, ih]
    · simp [wait_deps_loop, hdep, ih]

/-- Amended C8: the dependency wait checks `is_service_running` exactly once
per declared dependency and sleeps the fixed interval once for each
dependency found not Running, then returns success unconditionally — there is
no re-check and no unbounded retry — so the startup loop proceeds to spawn
every unfiltered service (whenever its spawn succeeds) regardless of its
dependencies' registry state. -/
theorem C8_dependency_wait_single_check :
    (∀ (svc : Service) (reg : ProcessState) (proj : String),
      (wait_for_dependencies svc reg proj).1 = Except.ok () ∧
      (wait_for_dependencies svc reg proj).2 =
        (svc.dependencies.filter
          (fun d => !(reg.is_service_running proj d))).map
          (fun d => StartAction.sleepWaitingFor svc.name d)) ∧
    (∀ (args : StartArgs) (env : StartEnv) (proj : String)
        (services : List Service) (reg : ProcessState),
      (∀ s, env.spawn_ok s = true) →
      ∀ svc ∈ services, args.should_start_service svc = true →
        StartAction.spawn svc.name (env.spawn_pid svc.name) ∈
          (start_services_loop args env proj services reg).2.2) := by
  constructor
  · intro svc reg proj
    exact ⟨rfl, wait_deps_loop_filter reg proj svc.name svc.dependencies⟩
  · intro args env proj services
    induction services with
    | nil =>
      intro reg _ svc hsvc
      exact absurd hsvc (List.not_mem_nil _)
    | cons u rest ih =>
      intro reg hok svc hsvc hstart
      rcases List.mem_cons.mp hsvc with rfl | hmem
      · simp only [start_services_loop, hstart, if_pos, hok svc.name]
        simp
      · by_cases hu : args.should_start_service u
        · have hrec := ih (reg.add_process (env.spawn_pid u.name) u.name proj
            u.command env.now) hok svc hmem hstart
          simp only [start_services_loop, hu, if_pos, hok u.name]
          simp [hrec]
        · rw [show start_services_loop args env proj (u :: rest) reg =
              start_services_loop args env proj rest reg from by
            simp [start_services_loop, hu]]
          exact ih _ hok svc hmem hstart

/-- Project with db and api-depending-on-db, for exercising the startup
loop with a filtered-out dependency. -/
def c8Specs : List Service := [mkService "db" [], mkService "api" ["db"]]

/-- Start only the api service of the demo project. -/
def c8Args : StartArgs := ⟨"demo", none, false, false, false, some ["api"], none⟩

/-- The demo project holding `c8Specs`. -/
def c8Project : ProjectConfig := ⟨"demo", none, some c8Specs⟩

/-- An OS assigning PID 101 to api's command, every spawn succeeding. -/
def c8Env : StartEnv :=
  ⟨fun s => if s == "api" then 101 else 100, fun _ => true, sampleTime⟩

/-- The claim as stated is false: starting the demo project with
`--only api` on an empty registry spawns api although its declared dependency
db — present in the project — is never Running: the trace shows exactly one
dependency sleep followed by the spawn (no unbounded retry), and db is never
registered. -/
theorem C8_dependency_wait_counterexample :
    emptyProcessState.is_service_running "demo" "db" = false ∧
    (start_services c8Args c8Env c8Project emptyProcessState).2.2 =
      [StartAction.sleepWaitingFor "api" "db", StartAction.spawn "api" 101] ∧
    (∀ e ∈ (start_services c8Args c8Env c8Project
        emptyProcessState).2.1.processes, e.2.service_name ≠ "db") :=
  ⟨rfl, by decide, by decide⟩

/-- Start everything: no filters. -/
def c8ArgsAll : StartArgs := ⟨"demo", none, false, false, false, none, none⟩

theorem C8_dependency_wait_single_check_witness :
    (∀ s, trivialStartEnv.spawn_ok s = true) ∧
    c8ArgsAll.should_start_service (mkService "db" []) = true ∧
    StartAction.spawn "db" 100 ∈
      (start_services_loop c8ArgsAll trivialStartEnv "demo" [mkService "db" []]
        emptyProcessState).2.2 :=
  ⟨fun _ => rfl, rfl,
    C8_dependency_wait_single_check.2 c8ArgsAll trivialStartEnv "demo"
      [mkService "db" []] emptyProcessState (fun _ => rfl)
      (mkService "db" []) (List.mem_cons_self _ _) rfl⟩
